import Mathlib

/-!
Verification development for the `@motioneffector/wiki` link-extraction and
bidirectional-graph-index engine.

The definitions below are a shallow embedding of the TypeScript sources
(`src/core/wiki.ts` and the link-extractor module).  Strings are modelled as
`List Char` internally (`String` at the interface).  JavaScript `Map`s are
modelled as insertion-ordered association lists, JavaScript `Set`s as
insertion-ordered duplicate-free lists, mirroring the iteration-order
semantics of the source.  `Date.now` is modelled by a logical clock, the
storage adapter by a log of storage operations, and event emission by a log
of events.  Unicode-specific behaviour (`toLowerCase`, `\p{L}`, `\p{N}`,
NFD decomposition) is modelled on the ASCII fragment: `Char.toLower`,
`Char.isAlpha`, `Char.isDigit`, and NFD as the identity (faithful for ASCII
and for already-decomposed input); the combining-mark strip `[̀-ͯ]`
is kept exactly.  The only line terminator modelled is `'\n'`.
-/

/-- Whitespace class used to model JavaScript `\s` and `String.trim`
(restricted to the code points that actually occur in the sources and
tests). -/
def isWs (c : Char) : Bool :=
  c = ' ' || c = '\t' || c = '\n' || c = '\r' ||
  c = Char.ofNat 11 || c = Char.ofNat 12 || c = Char.ofNat 0xa0 || c = Char.ofNat 0xfeff

/-- JavaScript `String.prototype.trim` on a character list. -/
def trimChars (l : List Char) : List Char :=
  ((l.dropWhile isWs).reverse.dropWhile isWs).reverse

/-- Decimal printer for `Nat`, modelling JavaScript number-to-string
conversion in template literals such as `` `page-${nextFallbackId++}` ``. -/
def natDec (n : Nat) : List Char :=
  let rec go (fuel n : Nat) (acc : List Char) : List Char :=
    match fuel with
    | 0 => acc
    | fuel + 1 =>
      let d := Char.ofNat (n % 10 + 48)
      if n < 10 then d :: acc else go fuel (n / 10) (d :: acc)
  go (n + 1) n []

/-- Combining diacritical marks `[̀-ͯ]` removed by `slugify`. -/
def isCombiningMark (c : Char) : Bool :=
  0x300 ≤ c.toNat && c.toNat ≤ 0x36f

/-- The character class kept by `slugify`'s filter
`replace(/[^\p{L}\p{N}\s-]/gu, '')`: letters, digits, whitespace, hyphen. -/
def isKeep (c : Char) : Bool :=
  c.isAlpha || c.isDigit || isWs c || c = '-'

/-- Helper for `replace(/\s+/g, '-')`: the flag records whether the previous
character belonged to a whitespace run already replaced by a hyphen. -/
def collapseWsAux : Bool → List Char → List Char
  | _, [] => []
  | inRun, c :: rest =>
    if isWs c then
      if inRun then collapseWsAux true rest
      else '-' :: collapseWsAux true rest
    else c :: collapseWsAux false rest

/-- `replace(/\s+/g, '-')`: every maximal run of whitespace becomes a single
hyphen. -/
def collapseWsRuns (l : List Char) : List Char :=
  collapseWsAux false l

/-- Helper for the hyphen-collapsing replace: the flag records whether the
previous character belonged to a hyphen run already emitted. -/
def collapseHyphenAux : Bool → List Char → List Char
  | _, [] => []
  | inRun, c :: rest =>
    if c = '-' then
      if inRun then collapseHyphenAux true rest
      else '-' :: collapseHyphenAux true rest
    else c :: collapseHyphenAux false rest

/-- The hyphen-collapsing replace (regex dash-plus, global): every maximal run
of hyphens becomes a single hyphen. -/
def collapseHyphenRuns (l : List Char) : List Char :=
  collapseHyphenAux false l

/-- `replace(/^-|-$/g, '')`: strip one leading and one trailing hyphen. -/
def stripEdgeHyphens (l : List Char) : List Char :=
  let l1 := if l.head? = some '-' then l.tail else l
  if l1.getLast? = some '-' then l1.dropLast else l1

/-- The pure core of `slugify` (wiki.ts lines 61-72): lowercase, trim,
NFD-decompose (modelled as the identity), strip combining marks, keep only
letters/digits/whitespace/hyphens, collapse whitespace runs to hyphens,
collapse hyphen runs, strip edge hyphens.  The `page-N` fallback of line 72
is stateful and modelled separately in `slugifyS`. -/
def slugCoreL (l : List Char) : List Char :=
  stripEdgeHyphens <| collapseHyphenRuns <| collapseWsRuns <|
    (((trimChars (l.map Char.toLower)).filter (fun c => !isCombiningMark c)).filter isKeep)

/-- String-level wrapper for the pure slug pipeline. -/
def slugCore (s : String) : String :=
  ⟨slugCoreL s.data⟩

/-- `slugify` with its stateful fallback: on an empty normalised form the
source returns `` `page-${nextFallbackId++}` ``, incrementing the wiki's
fallback counter.  The counter is threaded explicitly. -/
def slugifyS (fid : Nat) (s : String) : String × Nat :=
  let n := slugCore s
  if n = "" then (⟨('p' :: 'a' :: 'g' :: 'e' :: '-' :: natDec fid)⟩, fid + 1)
  else (n, fid)

example : slugCore "Hello World" = "hello-world" := by decide
example : slugCore "  --A  B--  " = "a-b" := by decide
example : slugCore "!!!" = "" := by decide
example : slugifyS 1 "!!!" = ("page-1", 2) := by decide
example : slugifyS 1 "B" = ("b", 1) := by decide

/-! ## Link scanner (link-extractor module)

`matchLink` decides whether a match of the default link pattern
`\[\[([^\]|]+)(?:\|[^\]]+)?\]\]` (wiki.ts line 23; the extractor module's own
default uses `[^\]]*` for the display part, selected by `plus := false`)
begins at the head of the character list, returning the group-1 capture and
the remainder after the match.  Because the character class of group 1
excludes `]` and `|`, and the display class excludes `]`, the regex engine's
greedy/backtracking behaviour collapses to: group 1 is the maximal run of
non-`]`/non-`|` characters, and the display part (if a `|` follows) is the
maximal run of non-`]` characters, each followed by the literal `]]`. -/

/-- Characters allowed inside the target capture group `[^\]|]`. -/
def isTargetChar (c : Char) : Bool :=
  !(c = ']' || c = '|')

/-- Try to match the default link pattern at the head of the list.
Returns `(capture, remainder)` on success.  `plus := true` is the wiki
engine's pattern (display text `[^\]]+`); `plus := false` is the extractor
module's default (display text `[^\]]*`). -/
def matchLink (plus : Bool) (cs : List Char) : Option (List Char × List Char) :=
  if cs.take 2 = ['[', '['] then
    let rest := cs.drop 2
    let cap := rest.takeWhile isTargetChar
    if cap.isEmpty then none
    else
      let rest2 := rest.drop cap.length
      if rest2.take 2 = [']', ']'] then some (cap, rest2.drop 2)
      else if rest2.take 1 = ['|'] then
        let rest3 := rest2.drop 1
        let disp := rest3.takeWhile fun c => !(c = ']')
        if plus && disp.isEmpty then none
        else if (rest3.drop disp.length).take 2 = [']', ']'] then
          some (cap, (rest3.drop disp.length).drop 2)
        else none
      else none
  else none

/-- Scan driver for `extractLinks` (extractor module lines 14-32): repeated
`exec` over the cleaned content, trimming each capture, discarding captures
containing a newline, stripping leading `[` characters, discarding empty
results, and deduplicating via the `seen` set.  On a failed match the scan
advances one position, as the regex engine does.  Each step consumes at
least one character, so `fuel := cs.length + 1` never runs out. -/
def scanAux (plus : Bool) : Nat → List Char → List (List Char) → List (List Char)
  | 0, _, _ => []
  | fuel + 1, cs, seen =>
    (matchLink plus cs).elim
      (if cs.isEmpty then [] else scanAux plus fuel cs.tail seen)
      (fun pr =>
        let t := trimChars pr.1
        if t.contains '\n' then scanAux plus fuel pr.2 seen
        else
          let t2 := t.dropWhile (· = '[')
          if t2.isEmpty then scanAux plus fuel pr.2 seen
          else if t2 ∈ seen then scanAux plus fuel pr.2 seen
          else t2 :: scanAux plus fuel pr.2 (seen ++ [t2]))

/-! ### Code-block removal (extractor module lines 48-64) -/

/-- Search for a closing triple delimiter; on success return the remainder
after it.  Models the regex engine's search for the non-greedy
`[\s\S]*?` followed by the closing fence. -/
def dropThroughTriple (d : Char) : List Char → Option (List Char)
  | [] => none
  | c :: rest =>
    if c = d && rest.take 2 = [d, d] then some (rest.drop 2)
    else dropThroughTriple d rest

/-- Global removal of fenced blocks delimited by a triple of `d`
(non-greedy, spanning newlines).  A fence with no closing delimiter is not a
match; the scan then advances one position. -/
def stripFencedAux (d : Char) : Nat → List Char → List Char
  | 0, cs => cs
  | fuel + 1, cs =>
    match cs with
    | [] => []
    | c :: rest =>
      if c = d && rest.take 2 = [d, d] then
        match dropThroughTriple d (rest.drop 2) with
        | some rem => stripFencedAux d fuel rem
        | none => c :: stripFencedAux d fuel rest
      else c :: stripFencedAux d fuel rest

def stripFenced (d : Char) (cs : List Char) : List Char :=
  stripFencedAux d (cs.length + 1) cs

/-- Global removal of double-backtick inline spans: ``` ``[^`]*?`` ```.
The non-greedy body cannot contain a backtick, so a match requires the first
backtick after the opening pair to be immediately followed by another. -/
def stripDoubleTickAux : Nat → List Char → List Char
  | 0, cs => cs
  | fuel + 1, cs =>
    match cs with
    | [] => []
    | c :: rest =>
      if c = '`' && rest.take 1 = ['`'] then
        let body := (rest.drop 1).takeWhile (fun x => !(x = '`'))
        match (rest.drop 1).drop body.length with
        | '`' :: '`' :: rem => stripDoubleTickAux fuel rem
        | _ => c :: stripDoubleTickAux fuel rest
      else c :: stripDoubleTickAux fuel rest

def stripDoubleTick (cs : List Char) : List Char :=
  stripDoubleTickAux (cs.length + 1) cs

/-- Global removal of single-backtick inline spans not spanning a newline:
``` `[^`\n]*?` ```. -/
def stripSingleTickAux : Nat → List Char → List Char
  | 0, cs => cs
  | fuel + 1, cs =>
    match cs with
    | [] => []
    | c :: rest =>
      if c = '`' then
        let body := rest.takeWhile (fun x => !(x = '`' || x = '\n'))
        match rest.drop body.length with
        | '`' :: rem => stripSingleTickAux fuel rem
        | _ => c :: stripSingleTickAux fuel rest
      else c :: stripSingleTickAux fuel rest

def stripSingleTick (cs : List Char) : List Char :=
  stripSingleTickAux (cs.length + 1) cs

/-- Split at newline characters (n separators yield n+1 parts). -/
def splitNl : List Char → List (List Char)
  | [] => [[]]
  | c :: rest =>
    if c = '\n' then [] :: splitNl rest
    else
      match splitNl rest with
      | l :: ls => (c :: l) :: ls
      | [] => [[c]]

/-- Rejoin lines with newlines (left inverse of `splitNl`). -/
def joinNl : List (List Char) → List Char
  | [] => []
  | [l] => l
  | l :: ls => l ++ '\n' :: joinNl ls

/-- Removal of indented code blocks, `replace(/^    .*/gm, '')`: the content
of every line whose first four characters are spaces is deleted (the newline
itself is kept, since `.` does not match it). -/
def stripIndented (cs : List Char) : List Char :=
  joinNl ((splitNl cs).map fun l =>
    if l.take 4 = [' ', ' ', ' ', ' '] then [] else l)

/-- `removeCodeBlocks` (extractor module lines 48-64): strip, in this order,
triple-backtick fences, triple-tilde fences, double-backtick spans,
single-backtick spans, and four-space-indented lines. -/
def removeCodeBlocks (cs : List Char) : List Char :=
  stripIndented (stripSingleTick (stripDoubleTick (stripFenced '~' (stripFenced '`' cs))))

/-- `extractLinks` on character lists: clean the content, then scan. -/
def extractLinksCore (plus : Bool) (content : List Char) : List (List Char) :=
  let cleaned := removeCodeBlocks content
  scanAux plus (cleaned.length + 1) cleaned []

/-- `extractLinks(content)` with the extractor module's own default pattern
(display part `[^\]]*`). -/
def extractLinks (content : String) : List String :=
  (extractLinksCore false content.data).map fun l => ⟨l⟩

/-- `extractLinks(content, DEFAULT_LINK_PATTERN)` as invoked by the wiki
engine (wiki.ts line 23; display part `[^\]]+`). -/
def extractLinksWiki (content : String) : List String :=
  (extractLinksCore true content.data).map fun l => ⟨l⟩

example : extractLinks "See [[Alpha]] and [[Beta|the beta page]]." = ["Alpha", "Beta"] := by decide
example : extractLinks "[[[Triple]]]" = ["Triple"] := by decide
example : extractLinks "[[Outer [[Inner]] End]]" = ["Outer [[Inner"] := by decide
example : extractLinks "[[A]] [[A]] [[B]]" = ["A", "B"] := by decide
example : extractLinks "```\n[[Not]]\n```" = [] := by decide
example : extractLinks "`[[Not]]` [[Real]]" = ["Real"] := by decide
example : extractLinks "~~~\n[[No1]]\n~~~ [[Yes]]" = ["Yes"] := by decide
example : extractLinks "``x[[No2]]y`` [[Yes]]" = ["Yes"] := by decide
example : extractLinks "    [[No3]]\nok [[Yes]]" = ["Yes"] := by decide
example : extractLinks "[[  spaced  ]]" = ["spaced"] := by decide
example : extractLinks "[[a\nb]] [[ok]]" = ["ok"] := by decide
example : extractLinks "[[a|]]" = ["a"] := by decide
example : extractLinksWiki "[[a|]]" = [] := by decide

/-! ## Link-pattern validation (wiki.ts lines 39-48)

`createWiki` checks a caller-supplied pattern for a capture group by testing
the regex source text with `/\([^?]/` — i.e. it looks for a `(` immediately
followed by a character other than `?`.  Only this validation step is
embedded; scanning is embedded for the default pattern only. -/

/-- The code's capture-group test `/\([^?]/.test(source)`: does the source
text contain a `(` immediately followed by a character other than `?`. -/
def hasParenNonQ : List Char → Bool
  | a :: b :: rest => (a = '(' && !(b = '?')) || hasParenNonQ (b :: rest)
  | _ => false

/-- Modelled from the spec: "a caller-supplied link pattern lacks a capture
group".  This decides whether a regex source text actually contains a
capturing group under the JavaScript regex grammar: an unescaped `(` outside
a character class opens a capture group unless followed by `?`, except that
the named-group form `(?<name>...)` (with `<` not followed by `=` or `!`)
is also capturing.  A trailing lone `(` is counted as opening a group (such
a source is not a valid RegExp anyway). -/
def containsCaptureGroup : Bool → List Char → Bool
  | _, [] => false
  | inClass, '\\' :: rest =>
    match rest with
    | [] => false
    | _ :: rest2 => containsCaptureGroup inClass rest2
  | true, c :: rest =>
    if c = ']' then containsCaptureGroup false rest
    else containsCaptureGroup true rest
  | false, c :: rest =>
    if c = '[' then containsCaptureGroup true rest
    else if c = '(' then
      match rest with
      | '?' :: '<' :: d :: _ =>
        if d = '=' || d = '!' then containsCaptureGroup false rest
        else true
      | '?' :: _ => containsCaptureGroup false rest
      | _ => true
    else containsCaptureGroup false rest

/-- `createWiki(options)` restricted to its pattern-validation behaviour
(wiki.ts lines 39-48): a supplied pattern whose source fails the
`/\([^?]/` test is rejected with a configuration error before any content
is scanned.  Returns the validated pattern source (or `none` for the
default pattern). -/
def createWiki (linkPattern : Option String) : Except String (Option String) :=
  match linkPattern with
  | none => .ok none
  | some src =>
    if hasParenNonQ src.data then .ok (some src)
    else .error "linkPattern must have at least one capture group"

example : (createWiki none).isOk = true := by decide
example : (createWiki (some "\\[\\[([^\\]|]+)(?:\\|[^\\]]+)?\\]\\]")).isOk = true := by decide
example : (createWiki (some "abc")).isOk = false := by decide

/-! ## Wiki engine state (wiki.ts)

JavaScript `Map`s become insertion-ordered association lists and `Set`s
insertion-ordered duplicate-free lists.  `new Date()` reads a logical clock
that is incremented per call; calls to the storage adapter and event
emissions are logged.  Thrown exceptions become `.error` results; since the
source mutates state in place before some throws, every operation returns
the (possibly mutated) state alongside the result. -/

/-- JS `Map.get`. -/
def alookup {α : Type} : List (String × α) → String → Option α
  | [], _ => none
  | (k, v) :: rest, key => if k = key then some v else alookup rest key

/-- JS `Map.has`. -/
def acontains {α : Type} (m : List (String × α)) (key : String) : Bool :=
  (alookup m key).isSome

/-- JS `Map.set`: overwrite in place when the key exists (keeping its
insertion position), otherwise append. -/
def aset {α : Type} : List (String × α) → String → α → List (String × α)
  | [], key, v => [(key, v)]
  | (k, w) :: rest, key, v =>
    if k = key then (k, v) :: rest else (k, w) :: aset rest key v

/-- JS `Map.delete`. -/
def adelete {α : Type} : List (String × α) → String → List (String × α)
  | [], _ => []
  | (k, w) :: rest, key => if k = key then rest else (k, w) :: adelete rest key

/-- JS `Set.add`: append unless already present. -/
def sadd (s : List String) (x : String) : List String :=
  if x ∈ s then s else s ++ [x]

/-- JS `Set.delete`. -/
def serase (s : List String) (x : String) : List String :=
  s.erase x

structure WikiPage where
  id : String
  title : String
  content : String
  type : Option String
  tags : Option (List String)
  created : Nat
  modified : Nat
deriving DecidableEq

inductive WEvent
  | createE (page : WikiPage)
  | updateE (page previous : WikiPage)
  | deleteE (page : WikiPage)
  | renameE (page : WikiPage) (previousTitle : String)
deriving DecidableEq

inductive StorageOp
  | save (page : WikiPage)
  | del (id : String)
deriving DecidableEq

structure WikiState where
  pages : List (String × WikiPage)
  linkIndex : List (String × List String)
  backlinkIndex : List (String × List String)
  nextFallbackId : Nat
  clock : Nat
  storageLog : List StorageOp
  events : List WEvent
deriving DecidableEq

/-- The state of `createWiki()` right after construction
(`nextFallbackId = 1`, wiki.ts line 58). -/
def emptyWiki : WikiState :=
  ⟨[], [], [], 1, 0, [], []⟩

/-- `indexPageLinks` (wiki.ts lines 123-136): extract the links of the
content, replace the forward entry wholesale, and add the page to the
reverse entry of each link's (statefully) slugified target. -/
def indexPageLinks (w : WikiState) (pageId : String) (content : String) : WikiState :=
  let links := extractLinksWiki content
  let w1 := { w with linkIndex := aset w.linkIndex pageId links }
  links.foldl (fun acc linkText =>
    let (targetId, fid) := slugifyS acc.nextFallbackId linkText
    let entry := (alookup acc.backlinkIndex targetId).getD []
    { acc with nextFallbackId := fid,
               backlinkIndex := aset acc.backlinkIndex targetId (sadd entry pageId) }) w1

/-- `removePageFromIndexes` (wiki.ts lines 139-155): remove the page from
the reverse entry of each of its (statefully re-slugified) link targets,
dropping reverse entries that become empty; then delete its forward entry
and delete the reverse entry keyed by the page's own id. -/
def removePageFromIndexes (w : WikiState) (pageId : String) : WikiState :=
  let links := (alookup w.linkIndex pageId).getD []
  let w1 := links.foldl (fun acc linkText =>
    let (targetId, fid) := slugifyS acc.nextFallbackId linkText
    let acc1 := { acc with nextFallbackId := fid }
    match alookup acc1.backlinkIndex targetId with
    | none => acc1
    | some s =>
      let s1 := serase s pageId
      if s1.isEmpty then { acc1 with backlinkIndex := adelete acc1.backlinkIndex targetId }
      else { acc1 with backlinkIndex := aset acc1.backlinkIndex targetId s1 }) w
  { w1 with linkIndex := adelete w1.linkIndex pageId,
            backlinkIndex := adelete w1.backlinkIndex pageId }

/-- `getLinks` (wiki.ts lines 364-367). -/
def getLinksW (w : WikiState) (id : String) : List String :=
  (alookup w.linkIndex id).getD []

/-- `getBacklinks` (wiki.ts lines 369-372). -/
def getBacklinksW (w : WikiState) (id : String) : List String :=
  (alookup w.backlinkIndex id).getD []

/-- `resolveLink` (wiki.ts lines 394-396): just `slugify(linkText)`,
including its stateful fallback. -/
def resolveLink (w : WikiState) (linkText : String) : String × WikiState :=
  let (s, fid) := slugifyS w.nextFallbackId linkText
  (s, { w with nextFallbackId := fid })

/-! ## Page CRUD operations (wiki.ts) -/

structure CreatePageData where
  id : Option String
  title : Option String
  content : Option String
  type : Option String
  tags : Option (List String)
deriving DecidableEq

/-- Presence of a key is distinguished from an `undefined` value by a
doubled `Option` (`some none` models `{ field: undefined }`). -/
structure UpdatePageData where
  title : Option String
  content : Option String
  type : Option (Option String)
  tags : Option (Option (List String))
deriving DecidableEq

/-- Tag validation shared by create and update (wiki.ts lines 104-113):
every tag must be a non-empty (after trim) string. -/
def tagsValid (l : List String) : Bool :=
  l.all fun tag => !(trimChars tag.data).isEmpty

/-- `validatePageData(data)` for create (wiki.ts lines 89-120): the title is
required and must not be blank; tags, when present, must all be non-empty
strings.  Returns the error message, if any. -/
def validateCreateErr (d : CreatePageData) : Option String :=
  match d.title with
  | none => some "Title is required"
  | some t =>
    if (trimChars t.data).isEmpty then some "Title cannot be empty"
    else match d.tags with
      | some l => if tagsValid l then none else some "Each tag must be a non-empty string"
      | none => none

/-- `validatePageData(data, true)` for update: the title is optional but
must not be blank when present. -/
def validateUpdateErr (d : UpdatePageData) : Option String :=
  let tagsErr : Option String :=
    match d.tags with
    | some (some l) => if tagsValid l then none else some "Each tag must be a non-empty string"
    | _ => none
  match d.title with
  | some t => if (trimChars t.data).isEmpty then some "Title cannot be empty" else tagsErr
  | none => tagsErr

/-- `generateUniqueId` (wiki.ts lines 76-86): append the first free numeric
suffix `-2`, `-3`, ... to a colliding base id.  The source's `while` loop
always terminates because among `pages.length + 1` distinct candidate ids at
most `pages.length` can be taken; the final fallback arm is unreachable. -/
def generateUniqueId (pages : List (String × WikiPage)) (baseId : String) : String :=
  if !(acontains pages baseId) then baseId
  else
    let cands := (List.range (pages.length + 1)).map
      fun k => baseId ++ "-" ++ (⟨natDec (k + 2)⟩ : String)
    match cands.find? (fun c => !(acontains pages c)) with
    | some c => c
    | none => baseId

/-- Shared tail of `createPage` once the id is fixed (wiki.ts lines
187-204): stamp timestamps, insert the page, index its links, persist,
emit. -/
def finishCreate (w : WikiState) (id title content : String) (ty : Option String)
    (tg : Option (List String)) (fid : Nat) : Except String WikiPage × WikiState :=
  let now := w.clock
  let page : WikiPage := ⟨id, title, content, ty, tg, now, now⟩
  let w1 := { w with nextFallbackId := fid, clock := w.clock + 1,
                     pages := aset w.pages id page }
  let w2 := indexPageLinks w1 id content
  let w3 := { w2 with storageLog := w2.storageLog ++ [.save page],
                      events := w2.events ++ [.createE page] }
  (.ok page, w3)

/-- `createPage(data)` (wiki.ts lines 170-205).  `if (data.id)` is JS
truthiness, so an empty-string id falls through to the slug path. -/
def createPage (w : WikiState) (data : CreatePageData) : Except String WikiPage × WikiState :=
  match validateCreateErr data with
  | some e => (.error e, w)
  | none =>
    let title := data.title.getD ""
    let content := data.content.getD ""
    let explicitId : Option String :=
      match data.id with
      | some i => if i = "" then none else some i
      | none => none
    match explicitId with
    | some i =>
      if acontains w.pages i then
        (.error ("Page with id '" ++ i ++ "' already exists"), w)
      else finishCreate w i title content data.type data.tags w.nextFallbackId
    | none =>
      let (baseId, fid) := slugifyS w.nextFallbackId title
      let id := generateUniqueId w.pages baseId
      finishCreate w id title content data.type data.tags fid

/-- `updatePage(id, data)` (wiki.ts lines 238-268): update the fields, stamp
`modified`, and re-index links only when the content actually changed. -/
def updatePage (w : WikiState) (id : String) (d : UpdatePageData) :
    Except String WikiPage × WikiState :=
  match alookup w.pages id with
  | none => (.error ("Page '" ++ id ++ "' not found"), w)
  | some page =>
    match validateUpdateErr d with
    | some e => (.error e, w)
    | none =>
      let previous := page
      let contentChanged : Bool :=
        match d.content with
        | some c => c != page.content
        | none => false
      let page1 : WikiPage :=
        { page with
          title := d.title.getD page.title,
          content := d.content.getD page.content,
          type := match d.type with | some v => v | none => page.type,
          tags := match d.tags with | some v => v | none => page.tags,
          modified := w.clock }
      let w1 := { w with clock := w.clock + 1, pages := aset w.pages id page1 }
      let w2 :=
        if contentChanged then indexPageLinks (removePageFromIndexes w1 id) id page1.content
        else w1
      let w3 := { w2 with storageLog := w2.storageLog ++ [.save page1],
                          events := w2.events ++ [.updateE page1 previous] }
      (.ok page1, w3)

/-- `deletePage(id, options)` (wiki.ts lines 270-285): remove the page, then
clean the indexes unless `updateLinks: false` was passed. -/
def deletePage (w : WikiState) (id : String) (updateLinks : Option Bool) :
    Except String Unit × WikiState :=
  match alookup w.pages id with
  | none => (.error ("Page '" ++ id ++ "' not found"), w)
  | some page =>
    let w1 := { w with pages := adelete w.pages id }
    let w2 := if updateLinks = some false then w1 else removePageFromIndexes w1 id
    let w3 := { w2 with storageLog := w2.storageLog ++ [.del id],
                        events := w2.events ++ [.deleteE page] }
    (.ok (), w3)

/-! ## Rename (wiki.ts lines 287-362) -/

/-- The sibling-content rewrite performed by `renamePage` with an id change:
global replace of the regex `\[\[<previousTitle>(\|[^\]]+)?\]\]` (the title
is regex-escaped, hence matched literally) with `[[<newTitle>$1]]`.  Each
step consumes at least one character, so `fuel := length + 1` suffices. -/
def rewriteLinkTextAux (prev new : List Char) : Nat → List Char → List Char
  | 0, cs => cs
  | _ + 1, [] => []
  | fuel + 1, c :: rest =>
    if (c :: rest).take (2 + prev.length) = '[' :: '[' :: prev then
      match (c :: rest).drop (2 + prev.length) with
      | ']' :: ']' :: rem =>
        '[' :: '[' :: (new ++ ']' :: ']' :: rewriteLinkTextAux prev new fuel rem)
      | '|' :: rest3 =>
        let disp := rest3.takeWhile fun x => !(x = ']')
        if disp.isEmpty then c :: rewriteLinkTextAux prev new fuel rest
        else
          match rest3.drop disp.length with
          | ']' :: ']' :: rem =>
            '[' :: '[' :: (new ++ '|' :: (disp ++ ']' :: ']' :: rewriteLinkTextAux prev new fuel rem))
          | _ => c :: rewriteLinkTextAux prev new fuel rest
      | _ => c :: rewriteLinkTextAux prev new fuel rest
    else c :: rewriteLinkTextAux prev new fuel rest

def rewriteLinkText (prev new content : String) : String :=
  ⟨rewriteLinkTextAux prev.data new.data (content.data.length + 1) content.data⟩

/-- The forward-set walk of `renamePage` (wiki.ts lines 339-347): replace,
inside one forward set, every link text whose (stateful) slug equals the old
id by the new title.  The iteration runs over a snapshot; matched texts are
deleted and the new title is appended once (or kept in place when already a
member). -/
def renameSetTexts (idOld newTitle : String) (fid : Nat) (s : List String) :
    List String × Nat :=
  let step := s.foldl (fun (p : List String × Nat) t =>
    let (tid, f) := slugifyS p.2 t
    (if tid = idOld then p.1 ++ [t] else p.1, f)) ([], fid)
  if step.1.isEmpty then (s, step.2)
  else
    let s1 := s.filter fun t => !(step.1.contains t)
    (if newTitle ∈ s1 then s1 else s1 ++ [newTitle], step.2)

/-- The backlink-set walk of `renamePage` (wiki.ts lines 349-354): replace
the old id by the new id as a source inside every reverse set. -/
def renameBacklinkSet (idOld newId : String) (s : List String) : List String :=
  if idOld ∈ s then sadd (serase s idOld) newId else s

/-- Shared tail of `renamePage`: persist and emit. -/
def finishRename (w : WikiState) (page : WikiPage) (previousTitle : String) :
    Except String WikiPage × WikiState :=
  (.ok page, { w with storageLog := w.storageLog ++ [.save page],
                      events := w.events ++ [.renameE page previousTitle] })

/-- `renamePage(id, newTitle, options)` (wiki.ts lines 287-362).  Note that
the title and `modified` stamp are written to the page *before* the
collision check of the `updateId` branch, so a rejected rename leaves the
new title behind. -/
def renamePage (w : WikiState) (id : String) (newTitle : String) (updateId : Bool) :
    Except String WikiPage × WikiState :=
  if newTitle = "" || (trimChars newTitle.data).isEmpty then
    (.error "Title cannot be empty", w)
  else
    match alookup w.pages id with
    | none => (.error ("Page '" ++ id ++ "' not found"), w)
    | some page =>
      let previousTitle := page.title
      let page1 := { page with title := newTitle, modified := w.clock }
      let w1 := { w with clock := w.clock + 1, pages := aset w.pages id page1 }
      if updateId then
        let (newId, fid) := slugifyS w1.nextFallbackId newTitle
        let w2 := { w1 with nextFallbackId := fid }
        if newId = id then finishRename w2 page1 previousTitle
        else if acontains w2.pages newId then
          (.error ("Page with id '" ++ newId ++ "' already exists"), w2)
        else
          -- rewrite the content of every page whose forward set holds the
          -- previous title (wiki.ts lines 309-318)
          let w3 := w2.linkIndex.foldl (fun acc (entry : String × List String) =>
            match alookup acc.pages entry.1 with
            | some sp =>
              if previousTitle ∈ entry.2 then
                let sp1 := { sp with
                  content := rewriteLinkText previousTitle newTitle sp.content }
                { acc with pages := aset acc.pages entry.1 sp1,
                           storageLog := acc.storageLog ++ [.save sp1] }
              else acc
            | none => acc) w2
          -- move the page to its new id (lines 320-323); the page object may
          -- have been rewritten by the loop above (self-link)
          let pageCur := (alookup w3.pages id).getD page1
          let page2 := { pageCur with id := newId }
          let w4 := { w3 with pages := aset (adelete w3.pages id) newId page2 }
          -- relocate the forward entry (lines 325-330)
          let w5 :=
            match alookup w4.linkIndex id with
            | some oldLinks =>
              { w4 with linkIndex := aset (adelete w4.linkIndex id) newId oldLinks }
            | none => w4
          -- relocate the reverse entry (lines 332-336); `Map.set` overwrites
          -- any existing entry under the new id
          let w6 :=
            match alookup w5.backlinkIndex id with
            | some oldB =>
              { w5 with backlinkIndex := aset (adelete w5.backlinkIndex id) newId oldB }
            | none => w5
          -- forward-set walk (lines 338-347), threading the fallback counter
          let step := w6.linkIndex.foldl (fun (p : List (String × List String) × Nat) e =>
            let (s1, f) := renameSetTexts id newTitle p.2 e.2
            (p.1 ++ [(e.1, s1)], f)) ([], w6.nextFallbackId)
          let w7 := { w6 with linkIndex := step.1, nextFallbackId := step.2 }
          -- backlink-set walk (lines 349-354)
          let w8 := { w7 with
            backlinkIndex := w7.backlinkIndex.map fun e => (e.1, renameBacklinkSet id newId e.2) }
          finishRename w8 page2 previousTitle
      else finishRename w1 page1 previousTitle

/-! ## Bounded bidirectional traversal (wiki.ts lines 457-495) -/

/-- One visit's enqueueing step of `getConnectedPages`: outgoing link
targets (statefully slugified, kept only when they are existing pages and
unvisited) followed by incoming backlink sources (kept when unvisited),
each at depth `curDepth + 1`. -/
def bfsPush (w : WikiState) (fid : Nat) (visited : List String)
    (cur : String) (curDepth : Nat) : List (String × Nat) × Nat :=
  let outgoing := (getLinksW w cur).foldl (fun (p : List (String × Nat) × Nat) linkText =>
    let (targetId, f) := slugifyS p.2 linkText
    if !(visited.contains targetId) && acontains w.pages targetId then
      (p.1 ++ [(targetId, curDepth + 1)], f)
    else (p.1, f)) ([], fid)
  (getBacklinksW w cur).foldl (fun (p : List (String × Nat) × Nat) bid =>
    if !(visited.contains bid) then (p.1 ++ [(bid, curDepth + 1)], p.2)
    else (p.1, p.2)) outgoing

/-- The BFS worklist loop of `getConnectedPages`.  One unit of fuel is spent
per dequeued entry; with `bfsFuel` below the fuel can never be exhausted, so
the fuel-zero arm (which returns the collected ids, exactly as the empty
queue does) is unreachable. -/
def bfsAux (w : WikiState) (depth : Nat) :
    Nat → List (String × Nat) → List String → List String → Nat → List String × Nat
  | 0, _, _, conn, fid => (conn, fid)
  | _ + 1, [], _, conn, fid => (conn, fid)
  | fuel + 1, cur :: rest, visited, conn, fid =>
    if visited.contains cur.1 then bfsAux w depth fuel rest visited conn fid
    else
      let visited1 := visited ++ [cur.1]
      let conn1 := conn ++ [cur.1]
      if cur.2 < depth then
        bfsAux w depth fuel (rest ++ (bfsPush w fid visited1 cur.1 cur.2).1)
          visited1 conn1 (bfsPush w fid visited1 cur.1 cur.2).2
      else bfsAux w depth fuel rest visited1 conn1 fid

/-- Every id that can ever be enqueued is the start id, an existing page id,
or a member of some reverse set; each of the at most `pages.length + Σ`
distinct visitable ids is visited at most once, and each visit enqueues at
most the total index size, so this fuel bound is never exhausted. -/
def bfsFuel (w : WikiState) : Nat :=
  let univ := w.pages.length + w.backlinkIndex.foldl (fun n e => n + e.2.length) 0
  let total := w.linkIndex.foldl (fun n e => n + e.2.length) 0 +
    w.backlinkIndex.foldl (fun n e => n + e.2.length) 0
  (univ + 1) * (total + 1) + 1

/-- `getConnectedPages(id, depth)` (wiki.ts lines 457-495).  The source
returns copies of the page objects in first-visit order; the stateful
slugify calls made during the traversal bump the shared fallback counter,
which is threaded internally (the bump is invisible in the returned
value). -/
def getConnectedPages (w : WikiState) (id : String) (depth : Nat) : List WikiPage :=
  match alookup w.pages id with
  | none => []
  | some _ =>
    let res := bfsAux w depth (bfsFuel w) [(id, 0)] [] [] w.nextFallbackId
    res.1.filterMap fun pid => alookup w.pages pid

/-- Decidable equality for `Except`, needed to evaluate operation results. -/
instance {e a : Type} [DecidableEq e] [DecidableEq a] : DecidableEq (Except e a) := fun x y =>
  match x, y with
  | .ok u, .ok v =>
    if h : u = v then isTrue (congrArg Except.ok h)
    else isFalse fun he => h (Except.ok.inj he)
  | .error u, .error v =>
    if h : u = v then isTrue (congrArg Except.error h)
    else isFalse fun he => h (Except.error.inj he)
  | .ok _, .error _ => isFalse fun he => Except.noConfusion he
  | .error _, .ok _ => isFalse fun he => Except.noConfusion he

/-! ## Concrete states used by several claims -/

/-- Creation payload with a title and content only. -/
def mkData (title content : String) : CreatePageData :=
  ⟨none, some title, some content, none, none⟩

/-- Two pages `a` and `b` linking to each other (the `A → B → A` cycle of
the spec's traversal property). -/
def wCycle : WikiState :=
  (createPage (createPage emptyWiki (mkData "A" "[[B]]")).2 (mkData "B" "[[A]]")).2

example : (wCycle.pages.map Prod.fst) = ["a", "b"] := by decide
example : getLinksW wCycle "a" = ["B"] := by decide
example : getLinksW wCycle "b" = ["A"] := by decide
example : getBacklinksW wCycle "a" = ["b"] := by decide
example : getBacklinksW wCycle "b" = ["a"] := by decide
example : (getConnectedPages wCycle "a" 0).map WikiPage.id = ["a"] := by decide
example : (getConnectedPages wCycle "a" 1).map WikiPage.id = ["a", "b"] := by decide
example : (getConnectedPages wCycle "a" 7).map WikiPage.id = ["a", "b"] := by decide
example : getConnectedPages wCycle "zzz" 3 = [] := by decide

/-- Target/source pair followed by a content update of the target: the
update deindexes the target, which deletes the reverse entry recording who
links to it. -/
def wUpdateTarget : WikiState :=
  let w1 := (createPage emptyWiki (mkData "Target" "")).2
  let w2 := (createPage w1 (mkData "Source" "[[Target]]")).2
  (updatePage w2 "target" ⟨none, some "Updated content", none, none⟩).2

example : getLinksW wUpdateTarget "source" = ["Target"] := by decide
example : slugCore "Target" = "target" := by decide
example : getBacklinksW wUpdateTarget "target" = [] := by decide

/-- A single page whose only link text normalises to the empty string, then
deleted: deindexing re-slugifies `"!!!"` and the stateful fallback now
yields `page-2`, so the reverse entry under `page-1` is never cleaned. -/
def wDeleteBang : WikiState :=
  (deletePage (createPage emptyWiki (mkData "A" "[[!!!]]")).2 "a" none).2

example : wDeleteBang.pages = [] := by decide
example : getLinksW wDeleteBang "a" = [] := by decide
example : getBacklinksW wDeleteBang "a" = [] := by decide
example : getBacklinksW wDeleteBang "page-1" = ["a"] := by decide

/-- Two pages `a`, `b`; renaming `a` to the title `"B"` with `updateId`
collides with `b`. -/
def wTwoPlain : WikiState :=
  (createPage (createPage emptyWiki (mkData "A" "")).2 (mkData "B" "")).2

example : (renamePage wTwoPlain "a" "B" true).1 =
    .error "Page with id 'b' already exists" := by decide
example : ((alookup (renamePage wTwoPlain "a" "B" true).2.pages "a").map WikiPage.title) =
    some "B" := by decide
example : ((alookup (renamePage wTwoPlain "a" "B" true).2.pages "a").map WikiPage.modified) =
    some 2 := by decide
example : ((alookup wTwoPlain.pages "a").map WikiPage.modified) = some 0 := by decide

example : createPage wTwoPlain ⟨some "a", some "Other", none, none, none⟩ =
    (.error "Page with id 'a' already exists", wTwoPlain) := by decide

/-! ## Small lemmas about the map and set model -/

/-- Lookup after `aset`: the written key reads back the written value, other
keys are unchanged. -/
theorem alookup_aset {α : Type} (m : List (String × α)) (k k' : String) (v : α) :
    alookup (aset m k v) k' = if k' = k then some v else alookup m k' := by
  induction m with
  | nil =>
    simp only [aset, alookup]
    by_cases h : k = k'
    · subst h; simp
    · have h2 : ¬ k' = k := fun hh => h hh.symm
      simp [h, h2]
  | cons e rest ih =>
    obtain ⟨a, b⟩ := e
    simp only [aset]
    by_cases hak : a = k
    · subst hak
      simp only [if_pos rfl, alookup]
      by_cases h : a = k'
      · subst h; simp
      · have h2 : ¬ k' = a := fun hh => h hh.symm
        simp [h, h2]
    · simp only [if_neg hak, alookup]
      by_cases h : a = k'
      · subst h
        have h2 : ¬ a = k := hak
        simp [h2]
      · simp [h, ih]

/-! ## Claim theorems -/

/-- C1: the bidirectional consistency invariant fails on the code.  After
the operation sequence `createPage "Target" ""`, `createPage "Source"
"[[Target]]"`, `updatePage "target" {content: "Updated content"}`, the page
`source` still has `"Target"` in `getLinks(source)` and
`normalize("Target") = "target"`, yet `getBacklinks("target")` is empty:
`updatePage` re-indexes via `removePageFromIndexes`, which deletes the
reverse entry keyed by the updated page's own id, discarding the record of
who links to it. -/
theorem bidirectional_invariant_fails_after_update :
    getLinksW wUpdateTarget "source" = ["Target"] ∧
    (resolveLink wUpdateTarget "Target").1 = "target" ∧
    acontains wUpdateTarget.pages "target" = true ∧
    getBacklinksW wUpdateTarget "target" = [] := by
  decide

/-- C2 counterexample: `renamePage` with `updateId` is not atomic on a
naming collision.  With pages `a` (title `"A"`) and `b` (title `"B"`),
renaming `a` to `"B"` with identifier update is rejected (id `b` exists),
but the rejected call has already overwritten page `a`'s title with `"B"`
and bumped its modified stamp from 0 to 2. -/
theorem renamePage_collision_not_atomic :
    (renamePage wTwoPlain "a" "B" true).1 =
      .error "Page with id 'b' already exists" ∧
    (alookup wTwoPlain.pages "a").map WikiPage.title = some "A" ∧
    (alookup (renamePage wTwoPlain "a" "B" true).2.pages "a").map WikiPage.title =
      some "B" ∧
    (alookup wTwoPlain.pages "a").map WikiPage.modified = some 0 ∧
    (alookup (renamePage wTwoPlain "a" "B" true).2.pages "a").map WikiPage.modified =
      some 2 := by
  decide

/-- C2 amended: on a naming collision, `renamePage` with `updateId` throws
after updating the renamed page's title and modified stamp (and the clock),
but before any other mutation: sibling contents, both indexes, the other
pages, the storage log, and the event log are exactly as before the call. -/
theorem renamePage_collision_partial_state (w : WikiState) (id newTitle : String)
    (page : WikiPage)
    (hne : newTitle ≠ "")
    (hnt : (trimChars newTitle.data).isEmpty = false)
    (hp : alookup w.pages id = some page)
    (hslug : slugCore newTitle ≠ "")
    (hdiff : slugCore newTitle ≠ id)
    (hcoll : acontains w.pages (slugCore newTitle) = true) :
    renamePage w id newTitle true =
      (.error ("Page with id '" ++ slugCore newTitle ++ "' already exists"),
       { w with clock := w.clock + 1,
                pages := aset w.pages id
                  { page with title := newTitle, modified := w.clock } }) := by
  have hfid : ∀ f, slugifyS f newTitle = (slugCore newTitle, f) := by
    intro f; rw [slugifyS]; simp [hslug]
  have hcond : (newTitle = "" || (trimChars newTitle.data).isEmpty) = false := by
    simp [hne, hnt]
  have hc2 : acontains (aset w.pages id { page with title := newTitle, modified := w.clock })
      (slugCore newTitle) = true := by
    rw [acontains, alookup_aset, if_neg hdiff]
    exact hcoll
  rw [renamePage, hcond]
  simp only [Bool.false_eq_true, if_false, hp, hfid, if_neg hdiff, hc2, if_true]

/-- C2 witness: the amended statement applied to the concrete two-page
state. -/
theorem renamePage_collision_partial_state_witness :
    renamePage wTwoPlain "a" "B" true =
      (.error ("Page with id '" ++ slugCore "B" ++ "' already exists"),
       { wTwoPlain with clock := wTwoPlain.clock + 1,
                        pages := aset wTwoPlain.pages "a"
                          { (⟨"a", "A", "", none, none, 0, 0⟩ : WikiPage) with
                            title := "B", modified := wTwoPlain.clock } }) :=
  renamePage_collision_partial_state wTwoPlain "a" "B" ⟨"a", "A", "", none, none, 0, 0⟩
    (by decide) (by decide) (by decide) (by decide) (by decide) (by decide)

/-- C8: after `deletePage` the deleted id can remain inside a reverse set,
the symptom the library's own documentation calls a bug.  Page `a` has the
single link text `"!!!"`, which normalises to the empty string; indexing
minted the fallback id `page-1` for it, but deindexing during deletion
re-slugifies `"!!!"` to the fresh `page-2`, so `getBacklinks("page-1")`
still contains the deleted page `a`. -/
theorem deletePage_leaves_id_in_reverse_set :
    wDeleteBang.pages = [] ∧
    getLinksW wDeleteBang "a" = [] ∧
    getBacklinksW wDeleteBang "a" = [] ∧
    getBacklinksW wDeleteBang "page-1" = ["a"] := by
  decide

/-- C10: `createPage` with an explicit id that already exists throws and
leaves the wiki state — pages, both indexes, fallback counter, clock,
storage log, and event log — completely unchanged. -/
theorem createPage_collision_atomic (w : WikiState) (data : CreatePageData)
    (i : String) (hid : data.id = some i) (hne : i ≠ "")
    (hex : acontains w.pages i = true) :
    (createPage w data).1.isOk = false ∧ (createPage w data).2 = w := by
  rw [createPage]
  cases hv : validateCreateErr data with
  | some e => exact ⟨rfl, rfl⟩
  | none =>
    simp only [hid, hne, hex, if_false, if_true, ite_false, ite_true]
    exact ⟨by rfl, trivial⟩

/-- C10 witness: creating a page with the explicit id `a` over the concrete
two-page state is rejected with the state unchanged. -/
theorem createPage_collision_atomic_witness :
    (createPage wTwoPlain ⟨some "a", some "Other", none, none, none⟩).1.isOk = false ∧
    (createPage wTwoPlain ⟨some "a", some "Other", none, none, none⟩).2 = wTwoPlain :=
  createPage_collision_atomic wTwoPlain ⟨some "a", some "Other", none, none, none⟩
    "a" rfl (by decide) (by decide)

/-- C6: link syntax inside code regions is never extracted.  Fenced blocks
(triple backtick and triple tilde), double-backtick spans, single-backtick
spans, and four-space-indented lines are deleted from the working copy
before scanning: the spec's two examples hold, one example per removal
category holds, and the working copy after removal is shown for the two
spec examples. -/
theorem extractLinks_code_span_exclusion :
    extractLinks "```\n[[Not]]\n```" = [] ∧
    extractLinks "`[[Not]]` [[Real]]" = ["Real"] ∧
    extractLinks "~~~\n[[No1]]\n~~~ [[Yes]]" = ["Yes"] ∧
    extractLinks "``x[[No2]]y`` [[Yes]]" = ["Yes"] ∧
    extractLinks "    [[No3]]\nok [[Yes]]" = ["Yes"] ∧
    removeCodeBlocks ("```\n[[Not]]\n```").data = [] ∧
    removeCodeBlocks ("`[[Not]]` [[Real]]").data = (" [[Real]]").data := by
  decide

/-- C7: the default pattern uses the first-closing-bracket policy with
leading-bracket stripping and does not resolve nesting.  For
`[[[Triple]]]` the raw group-1 capture is `[Triple` (remainder `]`), and
after leading-`[` stripping the extracted link is `Triple`; for
`[[Outer [[Inner]] End]]` the first match captures `Outer [[Inner`, which
is returned unchanged. -/
theorem extractLinks_first_close_policy :
    matchLink true ("[[[Triple]]]").data = some (("[Triple").data, ("]").data) ∧
    extractLinksWiki "[[[Triple]]]" = ["Triple"] ∧
    extractLinks "[[[Triple]]]" = ["Triple"] ∧
    matchLink true ("[[Outer [[Inner]] End]]").data =
      some (("Outer [[Inner").data, (" End]]").data) ∧
    extractLinksWiki "[[Outer [[Inner]] End]]" = ["Outer [[Inner"] ∧
    extractLinks "[[Outer [[Inner]] End]]" = ["Outer [[Inner"] := by
  decide

/-- C4 counterexample: the capture-group validation is a syntactic test of
the regex source (`/\([^?]/`), not a real capture-group check.  The source
`\(a` denotes a RegExp matching a literal `(` followed by `a` — it contains
no capture group — yet `createWiki` accepts it; conversely `(?<n>x)`
contains a (named) capture group yet is rejected. -/
theorem createWiki_pattern_check_counterexample :
    containsCaptureGroup false ("\\(a").data = false ∧
    createWiki (some "\\(a") = .ok (some "\\(a") ∧
    containsCaptureGroup false ("(?<n>x)").data = true ∧
    (createWiki (some "(?<n>x)")).isOk = false := by
  decide

/-- Declarative characterisation of the code's `/\([^?]/` test: it succeeds
exactly when some position holds `(` and the next position holds a
character other than `?`. -/
theorem hasParenNonQ_iff (l : List Char) :
    hasParenNonQ l = true ↔
      ∃ i c, l.get? i = some '(' ∧ l.get? (i + 1) = some c ∧ c ≠ '?' := by
  induction l with
  | nil =>
    simp [hasParenNonQ]
  | cons a t ih =>
    cases t with
    | nil =>
      simp only [hasParenNonQ]
      constructor
      · intro h; cases h
      · rintro ⟨i, c, h1, h2, h3⟩
        cases i with
        | zero => simp at h2
        | succ j => simp at h1
    | cons b rest =>
      rw [hasParenNonQ, Bool.or_eq_true, Bool.and_eq_true, ih]
      constructor
      · rintro (⟨ha, hb⟩ | ⟨i, c, h1, h2, h3⟩)
        · refine ⟨0, b, ?_, ?_, ?_⟩
          · simp only [List.get?_cons_zero]
            simp only [decide_eq_true_eq] at ha
            rw [ha]
          · rfl
          · simp only [Bool.not_eq_true', decide_eq_false_iff_not] at hb
            exact hb
        · exact ⟨i + 1, c, by simpa using h1, by simpa using h2, h3⟩
      · rintro ⟨i, c, h1, h2, h3⟩
        cases i with
        | zero =>
          left
          simp only [List.get?_cons_zero, List.get?_cons_succ, Option.some.injEq] at h1 h2
          constructor
          · simp [h1]
          · rw [h2]
            simp [h3]
        | succ j =>
          right
          exact ⟨j, c, by simpa using h1, by simpa using h2, h3⟩

/-- C4 amended: a caller-supplied pattern is accepted by `createWiki` if
and only if its source contains a `(` immediately followed by a character
other than `?` — the syntactic approximation the source uses in place of a
true capture-group check. -/
theorem createWiki_pattern_validation (src : String) :
    (createWiki (some src)).isOk = true ↔
      ∃ i c, src.data.get? i = some '(' ∧ src.data.get? (i + 1) = some c ∧ c ≠ '?' := by
  rw [← hasParenNonQ_iff]
  constructor
  · intro h
    by_contra hq
    have hq' : hasParenNonQ src.data = false := by
      cases hh : hasParenNonQ src.data
      · rfl
      · exact absurd hh hq
    rw [createWiki, hq'] at h
    simp [Except.isOk, Except.toBool] at h
  · intro h
    rw [createWiki, h]
    simp [Except.isOk, Except.toBool]

/-! ## Normaliser idempotence infrastructure (claim C3) -/

theorem toNat_ofNat_of_valid {n : Nat} (h : n < 0xd800) : (Char.ofNat n).toNat = n := by
  have hv : n.isValidChar := by left; exact h
  rw [Char.ofNat, dif_pos hv]
  simp [Char.ofNatAux, Char.toNat, UInt32.toNat]

theorem toLower_eq (c : Char) :
    c.toLower = if c.toNat ≥ 65 ∧ c.toNat ≤ 90 then Char.ofNat (c.toNat + 32) else c := rfl

/-- `toLowerCase` is idempotent: a lowered character is never upper-case. -/
theorem toLower_toLower (c : Char) : c.toLower.toLower = c.toLower := by
  have key : ¬(c.toLower.toNat ≥ 65 ∧ c.toLower.toNat ≤ 90) := by
    rw [toLower_eq c]
    by_cases h : c.toNat ≥ 65 ∧ c.toNat ≤ 90
    · rw [if_pos h]
      have ht : (Char.ofNat (c.toNat + 32)).toNat = c.toNat + 32 :=
        toNat_ofNat_of_valid (by omega)
      omega
    · rw [if_neg h]; exact h
  rw [toLower_eq c.toLower, if_neg key]

theorem map_eq_self_of {f : Char → Char} {l : List Char} (h : ∀ c ∈ l, f c = c) :
    l.map f = l := by
  induction l with
  | nil => rfl
  | cons a t ih =>
    simp only [List.map_cons, h a (List.mem_cons_self a t)]
    rw [ih fun c hc => h c (List.mem_cons_of_mem a hc)]

theorem mem_collapseWsAux {c : Char} : ∀ {b : Bool} {l : List Char},
    c ∈ collapseWsAux b l → c = '-' ∨ c ∈ l := by
  intro b l
  induction l generalizing b with
  | nil => intro h; exact absurd h (by simp [collapseWsAux])
  | cons a t ih =>
    intro h
    rw [collapseWsAux] at h
    by_cases hw : isWs a
    · rw [if_pos hw] at h
      cases b with
      | true =>
        rcases ih h with h1 | h1
        · exact Or.inl h1
        · exact Or.inr (List.mem_cons_of_mem a h1)
      | false =>
        rcases List.mem_cons.mp h with h1 | h1
        · exact Or.inl h1
        · rcases ih h1 with h2 | h2
          · exact Or.inl h2
          · exact Or.inr (List.mem_cons_of_mem a h2)
    · rw [if_neg hw] at h
      rcases List.mem_cons.mp h with h1 | h1
      · exact Or.inr (h1 ▸ List.mem_cons_self a t)
      · rcases ih h1 with h2 | h2
        · exact Or.inl h2
        · exact Or.inr (List.mem_cons_of_mem a h2)

theorem notWs_collapseWsAux {c : Char} : ∀ {b : Bool} {l : List Char},
    c ∈ collapseWsAux b l → isWs c = false := by
  intro b l
  induction l generalizing b with
  | nil => intro h; exact absurd h (by simp [collapseWsAux])
  | cons a t ih =>
    intro h
    rw [collapseWsAux] at h
    by_cases hw : isWs a
    · rw [if_pos hw] at h
      cases b with
      | true => exact ih h
      | false =>
        rcases List.mem_cons.mp h with h1 | h1
        · rw [h1]; decide
        · exact ih h1
    · rw [if_neg hw] at h
      rcases List.mem_cons.mp h with h1 | h1
      · rw [h1]; exact Bool.of_not_eq_true hw
      · exact ih h1

theorem mem_collapseHyphenAux {c : Char} : ∀ {b : Bool} {l : List Char},
    c ∈ collapseHyphenAux b l → c = '-' ∨ c ∈ l := by
  intro b l
  induction l generalizing b with
  | nil => intro h; exact absurd h (by simp [collapseHyphenAux])
  | cons a t ih =>
    intro h
    rw [collapseHyphenAux] at h
    by_cases hh : a = '-'
    · rw [if_pos hh] at h
      cases b with
      | true =>
        rcases ih h with h1 | h1
        · exact Or.inl h1
        · exact Or.inr (List.mem_cons_of_mem a h1)
      | false =>
        rcases List.mem_cons.mp h with h1 | h1
        · exact Or.inl h1
        · rcases ih h1 with h2 | h2
          · exact Or.inl h2
          · exact Or.inr (List.mem_cons_of_mem a h2)
    · rw [if_neg hh] at h
      rcases List.mem_cons.mp h with h1 | h1
      · exact Or.inr (h1 ▸ List.mem_cons_self a t)
      · rcases ih h1 with h2 | h2
        · exact Or.inl h2
        · exact Or.inr (List.mem_cons_of_mem a h2)

theorem mem_trimChars {c : Char} {l : List Char} (h : c ∈ trimChars l) : c ∈ l := by
  rw [trimChars] at h
  rw [List.mem_reverse] at h
  have h2 := (List.dropWhile_suffix isWs).subset h
  rw [List.mem_reverse] at h2
  exact (List.dropWhile_suffix isWs).subset h2

theorem dropWhile_eq_self_of {p : Char → Bool} {l : List Char}
    (h : ∀ c ∈ l, p c = false) : l.dropWhile p = l := by
  cases l with
  | nil => rfl
  | cons a t =>
    rw [List.dropWhile_cons, h a (List.mem_cons_self a t)]
    simp

theorem trimChars_eq_self {l : List Char} (h : ∀ c ∈ l, isWs c = false) :
    trimChars l = l := by
  rw [trimChars, dropWhile_eq_self_of h,
    dropWhile_eq_self_of fun c hc => h c (List.mem_reverse.mp hc), List.reverse_reverse]

theorem collapseWsAux_eq_self {l : List Char} (h : ∀ c ∈ l, isWs c = false) :
    collapseWsAux false l = l := by
  induction l with
  | nil => rfl
  | cons a t ih =>
    rw [collapseWsAux, if_neg (by simp [h a (List.mem_cons_self a t)]),
      ih fun c hc => h c (List.mem_cons_of_mem a hc)]

/-- Adjacent double hyphens never occur. -/
def NoHH (l : List Char) : Prop :=
  List.Chain' (fun a b => ¬(a = '-' ∧ b = '-')) l

theorem head_collapseHyphenAux_true : ∀ {l : List Char},
    (collapseHyphenAux true l).head? ≠ some '-' := by
  intro l
  induction l with
  | nil => simp [collapseHyphenAux]
  | cons a t ih =>
    rw [collapseHyphenAux]
    by_cases hh : a = '-'
    · rw [if_pos hh]; exact ih
    · rw [if_neg hh]
      simp only [List.head?_cons, ne_eq, Option.some.injEq]
      exact hh

theorem noHH_collapseHyphenAux : ∀ {l : List Char} {b : Bool},
    NoHH (collapseHyphenAux b l) := by
  intro l
  induction l with
  | nil => intro b; simp [collapseHyphenAux, NoHH]
  | cons a t ih =>
    intro b
    rw [collapseHyphenAux]
    by_cases hh : a = '-'
    · rw [if_pos hh]
      cases b with
      | true => exact ih
      | false =>
        rw [if_neg (by simp : ¬(false = true))]
        rw [NoHH, List.chain'_cons']
        refine ⟨?_, ih⟩
        intro y hy
        have hne : ¬ y = '-' := by
          intro hy'
          exact head_collapseHyphenAux_true (hy' ▸ hy)
        exact fun hc => hne hc.2
    · rw [if_neg hh]
      rw [NoHH, List.chain'_cons']
      exact ⟨fun y _ hc => hh hc.1, ih⟩

theorem collapseHyphenAux_fix : ∀ {l : List Char}, NoHH l →
    collapseHyphenAux false l = l ∧
      (l.head? ≠ some '-' → collapseHyphenAux true l = l) := by
  intro l
  induction l with
  | nil => intro _; exact ⟨rfl, fun _ => rfl⟩
  | cons a t ih =>
    intro h
    rw [NoHH, List.chain'_cons'] at h
    obtain ⟨hR, ht⟩ := h
    have iht := ih ht
    by_cases hh : a = '-'
    · subst hh
      have hthead : t.head? ≠ some '-' := by
        intro hcon
        exact (hR '-' hcon) ⟨rfl, rfl⟩
      constructor
      · rw [collapseHyphenAux, if_pos rfl, if_neg (by simp : ¬(false = true)),
          iht.2 hthead]
      · intro hcon
        exact absurd (List.head?_cons ..) hcon
    · constructor
      · rw [collapseHyphenAux, if_neg hh, iht.1]
      · intro _
        rw [collapseHyphenAux, if_neg hh, iht.1]

theorem mem_of_mem_dropLast {c : Char} {l : List Char} (h : c ∈ l.dropLast) :
    c ∈ l := by
  cases hl : l.getLast? with
  | none =>
    cases l with
    | nil => exact absurd h (by simp)
    | cons a t => simp [List.getLast?_eq_none_iff] at hl
  | some a =>
    have := List.dropLast_append_getLast? a hl
    rw [← this]
    exact List.mem_append_left _ h

theorem mem_stripEdgeHyphens {c : Char} {l : List Char}
    (h : c ∈ stripEdgeHyphens l) : c ∈ l := by
  rw [stripEdgeHyphens] at h
  by_cases h1 : (if l.head? = some '-' then l.tail else l).getLast? = some '-'
  · rw [if_pos h1] at h
    have h2 := mem_of_mem_dropLast h
    by_cases h3 : l.head? = some '-'
    · rw [if_pos h3] at h2
      exact List.mem_of_mem_tail h2
    · rwa [if_neg h3] at h2
  · rw [if_neg h1] at h
    by_cases h3 : l.head? = some '-'
    · rw [if_pos h3] at h
      exact List.mem_of_mem_tail h
    · rwa [if_neg h3] at h

theorem NoHH.tail' {l : List Char} (h : NoHH l) : NoHH l.tail :=
  List.Chain'.tail h

theorem NoHH.dropLast' {l : List Char} (h : NoHH l) : NoHH l.dropLast := by
  cases hl : l.getLast? with
  | none =>
    cases l with
    | nil => exact h
    | cons a t => simp [List.getLast?_eq_none_iff] at hl
  | some a =>
    have hsplit := List.dropLast_append_getLast? a hl
    exact List.Chain'.prefix h ⟨[a], hsplit⟩

theorem noHH_stripEdgeHyphens {l : List Char} (h : NoHH l) :
    NoHH (stripEdgeHyphens l) := by
  rw [stripEdgeHyphens]
  have h1 : NoHH (if l.head? = some '-' then l.tail else l) := by
    by_cases h3 : l.head? = some '-'
    · rw [if_pos h3]; exact h.tail'
    · rwa [if_neg h3]
  by_cases h2 : (if l.head? = some '-' then l.tail else l).getLast? = some '-'
  · rw [if_pos h2]; exact h1.dropLast'
  · rwa [if_neg h2]

theorem head_dropLast_ne {l : List Char} {c : Char} (h : l.head? ≠ some c) :
    l.dropLast.head? ≠ some c := by
  cases l with
  | nil => simp
  | cons a t =>
    cases t with
    | nil => simp
    | cons b r =>
      rw [List.dropLast_cons₂]
      simpa using h

theorem head_stripEdgeHyphens {l : List Char} (h : NoHH l) :
    (stripEdgeHyphens l).head? ≠ some '-' := by
  rw [stripEdgeHyphens]
  have h1 : (if l.head? = some '-' then l.tail else l).head? ≠ some '-' := by
    by_cases h3 : l.head? = some '-'
    · rw [if_pos h3]
      cases l with
      | nil => simp
      | cons a t =>
        have ha : a = '-' := by simpa using h3
        subst ha
        rw [NoHH, List.chain'_cons'] at h
        intro hcon
        exact (h.1 '-' hcon) ⟨rfl, rfl⟩
    · rwa [if_neg h3]
  by_cases h2 : (if l.head? = some '-' then l.tail else l).getLast? = some '-'
  · rw [if_pos h2]
    exact head_dropLast_ne h1
  · rwa [if_neg h2]

theorem last_stripEdgeHyphens {l : List Char} (h : NoHH l) :
    (stripEdgeHyphens l).getLast? ≠ some '-' := by
  rw [stripEdgeHyphens]
  have h1 : NoHH (if l.head? = some '-' then l.tail else l) := by
    by_cases h3 : l.head? = some '-'
    · rw [if_pos h3]; exact h.tail'
    · rwa [if_neg h3]
  by_cases h2 : (if l.head? = some '-' then l.tail else l).getLast? = some '-'
  · rw [if_pos h2]
    set m := if l.head? = some '-' then l.tail else l with hm
    have hsplit := List.dropLast_append_getLast? _ h2
    rw [NoHH, ← hsplit, List.chain'_append] at h1
    intro hcon
    have := h1.2.2 '-' hcon '-' (by simp)
    exact this ⟨rfl, rfl⟩
  · rwa [if_neg h2]

theorem stripEdgeHyphens_eq_self {l : List Char}
    (hh : l.head? ≠ some '-') (hl : l.getLast? ≠ some '-') :
    stripEdgeHyphens l = l := by
  rw [stripEdgeHyphens, if_neg hh, if_neg hl]

/-- A character list that is already in normal form is a fixed point of the
slug pipeline. -/
theorem slugCoreL_fixed {l : List Char}
    (hlow : ∀ c ∈ l, c.toLower = c)
    (hws : ∀ c ∈ l, isWs c = false)
    (hmark : ∀ c ∈ l, isCombiningMark c = false)
    (hkeep : ∀ c ∈ l, isKeep c = true)
    (hchain : NoHH l)
    (hhead : l.head? ≠ some '-')
    (hlast : l.getLast? ≠ some '-') :
    slugCoreL l = l := by
  have hA : l.filter (fun c => !isCombiningMark c) = l :=
    List.filter_eq_self.mpr fun c hc => by simp [hmark c hc]
  have hB : l.filter isKeep = l := List.filter_eq_self.mpr hkeep
  rw [slugCoreL, map_eq_self_of hlow, trimChars_eq_self hws, hA, hB,
    collapseWsRuns, collapseWsAux_eq_self hws,
    collapseHyphenRuns, (collapseHyphenAux_fix hchain).1,
    stripEdgeHyphens_eq_self hhead hlast]

/-- Every character of a slug is hyphen-free whitespace-wise: lower-case
stable, not whitespace, not a combining mark, and in the kept class. -/
theorem slugCoreL_all (l : List Char) : ∀ c ∈ slugCoreL l,
    c.toLower = c ∧ isWs c = false ∧ isCombiningMark c = false ∧ isKeep c = true := by
  intro c hc
  rw [slugCoreL] at hc
  have hc2 := mem_stripEdgeHyphens hc
  rcases mem_collapseHyphenAux hc2 with h | h
  · subst h
    exact ⟨by decide, by decide, by decide, by decide⟩
  · rw [collapseWsRuns] at h
    have hnw : isWs c = false := notWs_collapseWsAux h
    rcases mem_collapseWsAux h with h1 | h1
    · subst h1
      exact ⟨by decide, by decide, by decide, by decide⟩
    · have hk := (List.mem_filter.mp h1).2
      have h2 := (List.mem_filter.mp h1).1
      have hm := (List.mem_filter.mp h2).2
      have h3 := mem_trimChars (List.mem_filter.mp h2).1
      obtain ⟨d, _, hdc⟩ := List.mem_map.mp h3
      refine ⟨?_, hnw, ?_, hk⟩
      · rw [← hdc]; exact toLower_toLower d
      · simpa using hm

theorem slugCoreL_noHH (l : List Char) : NoHH (slugCoreL l) :=
  noHH_stripEdgeHyphens noHH_collapseHyphenAux

theorem slugCoreL_head (l : List Char) : (slugCoreL l).head? ≠ some '-' :=
  head_stripEdgeHyphens noHH_collapseHyphenAux

theorem slugCoreL_last (l : List Char) : (slugCoreL l).getLast? ≠ some '-' :=
  last_stripEdgeHyphens noHH_collapseHyphenAux

/-- Idempotence of the pure slug pipeline. -/
theorem slugCoreL_idem (l : List Char) : slugCoreL (slugCoreL l) = slugCoreL l :=
  slugCoreL_fixed (fun c hc => (slugCoreL_all l c hc).1)
    (fun c hc => (slugCoreL_all l c hc).2.1)
    (fun c hc => (slugCoreL_all l c hc).2.2.1)
    (fun c hc => (slugCoreL_all l c hc).2.2.2)
    (slugCoreL_noHH l) (slugCoreL_head l) (slugCoreL_last l)

/-- Idempotence at the `String` interface. -/
theorem slugCore_idem (s : String) : slugCore (slugCore s) = slugCore s :=
  congrArg String.mk (slugCoreL_idem s.data)

/-- Every character emitted by the decimal printer is an ASCII digit. -/
theorem natDec_go_bounds : ∀ (fuel n : Nat) (acc : List Char),
    (∀ c ∈ acc, 48 ≤ c.toNat ∧ c.toNat ≤ 57) →
    ∀ c ∈ natDec.go fuel n acc, 48 ≤ c.toNat ∧ c.toNat ≤ 57 := by
  intro fuel
  induction fuel with
  | zero => intro n acc hacc c hc; exact hacc c hc
  | succ f ih =>
    intro n acc hacc c hc
    rw [natDec.go] at hc
    have hd : 48 ≤ (Char.ofNat (n % 10 + 48)).toNat ∧
        (Char.ofNat (n % 10 + 48)).toNat ≤ 57 := by
      have h10 : n % 10 < 10 := Nat.mod_lt _ (by omega)
      rw [toNat_ofNat_of_valid (by omega)]
      omega
    have hacc' : ∀ x ∈ Char.ofNat (n % 10 + 48) :: acc,
        48 ≤ x.toNat ∧ x.toNat ≤ 57 := by
      intro x hx
      rcases List.mem_cons.mp hx with h | h
      · rw [h]; exact hd
      · exact hacc x h
    by_cases hn : n < 10
    · rw [if_pos hn] at hc
      exact hacc' c hc
    · rw [if_neg hn] at hc
      exact ih _ _ hacc' c hc

theorem natDec_bounds (n : Nat) : ∀ c ∈ natDec n, 48 ≤ c.toNat ∧ c.toNat ≤ 57 :=
  natDec_go_bounds (n + 1) n [] (by intro c hc; exact absurd hc (by simp))

theorem natDec_go_ne_nil : ∀ (fuel n : Nat) (acc : List Char),
    acc ≠ [] → natDec.go fuel n acc ≠ [] := by
  intro fuel
  induction fuel with
  | zero => intro n acc hacc; rw [natDec.go]; exact hacc
  | succ f ih =>
    intro n acc hacc
    rw [natDec.go]
    by_cases hn : n < 10
    · rw [if_pos hn]; exact List.cons_ne_nil _ _
    · rw [if_neg hn]
      exact ih _ _ (List.cons_ne_nil _ _)

theorem natDec_ne_nil (n : Nat) : natDec n ≠ [] := by
  rw [natDec, natDec.go]
  by_cases hn : n < 10
  · rw [if_pos hn]; exact List.cons_ne_nil _ _
  · rw [if_neg hn]
    exact natDec_go_ne_nil _ _ _ (List.cons_ne_nil _ _)

/-- The slug-pipeline facts for an ASCII digit. -/
theorem digit_facts {c : Char} (h48 : 48 ≤ c.toNat) (h57 : c.toNat ≤ 57) :
    c.toLower = c ∧ isWs c = false ∧ isCombiningMark c = false ∧
      isKeep c = true ∧ c ≠ '-' := by
  have hc : c = Char.ofNat c.toNat := (Char.ofNat_toNat c).symm
  rw [hc]
  set m := c.toNat with hm
  interval_cases m <;>
    exact ⟨by decide, by decide, by decide, by decide, by decide⟩

/-- A list without hyphens has no adjacent hyphen pair. -/
theorem noHH_of_no_hyphen {l : List Char} (h : ∀ c ∈ l, c ≠ '-') : NoHH l := by
  induction l with
  | nil => simp [NoHH]
  | cons a t ih =>
    rw [NoHH, List.chain'_cons']
    refine ⟨fun y _ hc => h a (List.mem_cons_self a t) hc.1,
      ih fun c hc => h c (List.mem_cons_of_mem a hc)⟩

/-- The fallback id `page-N` is a fixed point of the slug pipeline. -/
theorem slug_pageN (fid : Nat) :
    slugCoreL ('p' :: 'a' :: 'g' :: 'e' :: '-' :: natDec fid) =
      'p' :: 'a' :: 'g' :: 'e' :: '-' :: natDec fid := by
  have hdig := natDec_bounds fid
  have hmem : ∀ c ∈ ('p' :: 'a' :: 'g' :: 'e' :: '-' :: natDec fid),
      c.toLower = c ∧ isWs c = false ∧ isCombiningMark c = false ∧ isKeep c = true := by
    intro c hc
    simp only [List.mem_cons] at hc
    rcases hc with h | h | h | h | h | h
    · subst h; exact ⟨by decide, by decide, by decide, by decide⟩
    · subst h; exact ⟨by decide, by decide, by decide, by decide⟩
    · subst h; exact ⟨by decide, by decide, by decide, by decide⟩
    · subst h; exact ⟨by decide, by decide, by decide, by decide⟩
    · subst h; exact ⟨by decide, by decide, by decide, by decide⟩
    · obtain ⟨hf, _, _, _, _⟩ :=
        digit_facts (hdig c h).1 (hdig c h).2
      exact ⟨hf, (digit_facts (hdig c h).1 (hdig c h).2).2.1,
        (digit_facts (hdig c h).1 (hdig c h).2).2.2.1,
        (digit_facts (hdig c h).1 (hdig c h).2).2.2.2.1⟩
  apply slugCoreL_fixed
  · exact fun c hc => (hmem c hc).1
  · exact fun c hc => (hmem c hc).2.1
  · exact fun c hc => (hmem c hc).2.2.1
  · exact fun c hc => (hmem c hc).2.2.2
  · have hds : ∀ c ∈ natDec fid, c ≠ '-' := fun c hc =>
      (digit_facts (hdig c hc).1 (hdig c hc).2).2.2.2.2
    rw [NoHH, List.chain'_cons', List.chain'_cons', List.chain'_cons',
      List.chain'_cons', List.chain'_cons']
    refine ⟨by simp, by simp, by simp, by simp, ?_, ?_⟩
    · intro y hy
      exact fun hc => hds y (List.mem_of_mem_head? hy) hc.2
    · exact noHH_of_no_hyphen hds
  · simp
  · cases hds : natDec fid with
    | nil => exact absurd hds (natDec_ne_nil fid)
    | cons d t =>
      rw [List.getLast?_cons_cons, List.getLast?_cons_cons,
        List.getLast?_cons_cons, List.getLast?_cons_cons,
        List.getLast?_cons_cons]
      intro hcon
      have hx := List.mem_of_mem_getLast? hcon
      have : '-' ∈ natDec fid := by rw [hds]; exact hx
      exact (digit_facts (hdig _ this).1 (hdig _ this).2).2.2.2.2 rfl

theorem slugifyS_of_ne {fid : Nat} {s : String} (h : slugCore s ≠ "") :
    slugifyS fid s = (slugCore s, fid) := by
  rw [slugifyS]; simp [h]

theorem slugCore_pageN (fid : Nat) :
    slugCore ⟨'p' :: 'a' :: 'g' :: 'e' :: '-' :: natDec fid⟩ =
      ⟨'p' :: 'a' :: 'g' :: 'e' :: '-' :: natDec fid⟩ :=
  congrArg String.mk (slug_pageN fid)

theorem pageN_ne_empty (fid : Nat) :
    (⟨'p' :: 'a' :: 'g' :: 'e' :: '-' :: natDec fid⟩ : String) ≠ "" := by
  intro h
  have h2 := congrArg String.data h
  simp at h2

/-- C3 counterexample: `resolveLink` is not deterministic.  The link text
`"!!!"` normalises to the empty string, so each invocation mints a fresh
fallback id: the first call returns `page-1`, the second (on the same
input, in the same run) returns `page-2`. -/
theorem resolveLink_not_deterministic :
    (resolveLink emptyWiki "!!!").1 = "page-1" ∧
    (resolveLink (resolveLink emptyWiki "!!!").2 "!!!").1 = "page-2" ∧
    ("page-1" : String) ≠ "page-2" := by
  decide

/-- C3 amended: the normaliser is idempotent in the sequential sense —
feeding the returned identifier back returns it unchanged — for every
input; and it is deterministic (state-independent, state-preserving,
returning the pure slug) exactly on inputs whose normalised core is
non-empty. -/
theorem resolveLink_idempotent_and_deterministic :
    (∀ (w : WikiState) (s : String),
      (resolveLink (resolveLink w s).2 (resolveLink w s).1).1 = (resolveLink w s).1) ∧
    (∀ (w : WikiState) (s : String), slugCore s ≠ "" →
      resolveLink w s = (slugCore s, w)) := by
  have hdet : ∀ (w : WikiState) (s : String), slugCore s ≠ "" →
      resolveLink w s = (slugCore s, w) := by
    intro w s h
    rw [resolveLink, slugifyS_of_ne h]
  refine ⟨?_, hdet⟩
  intro w s
  by_cases hs : slugCore s = ""
  · have h1 : resolveLink w s =
        (⟨'p' :: 'a' :: 'g' :: 'e' :: '-' :: natDec w.nextFallbackId⟩,
         { w with nextFallbackId := w.nextFallbackId + 1 }) := by
      rw [resolveLink, slugifyS, if_pos hs]
    rw [h1]
    have hne : slugCore
        (⟨'p' :: 'a' :: 'g' :: 'e' :: '-' :: natDec w.nextFallbackId⟩ : String) ≠ "" := by
      rw [slugCore_pageN]; exact pageN_ne_empty w.nextFallbackId
    rw [hdet _ _ hne, slugCore_pageN]
  · rw [hdet w s hs, hdet w (slugCore s) (by rw [slugCore_idem]; exact hs)]
    exact slugCore_idem s

/-- C3 witness: on `"Hello World"` (non-empty normalised core) the amended
statement gives the pure, state-preserving slug `hello-world`. -/
theorem resolveLink_idempotent_and_deterministic_witness :
    slugCore "Hello World" ≠ "" ∧
    resolveLink emptyWiki "Hello World" = ("hello-world", emptyWiki) := by
  refine ⟨by decide, ?_⟩
  rw [resolveLink_idempotent_and_deterministic.2 emptyWiki "Hello World" (by decide)]
  decide


/-! ## Scanner output shape (claim C9) -/

/-- Both success arms of `matchLink` capture a `takeWhile isTargetChar`
run, so every captured character is in the class `[^\]|]`. -/
theorem matchLink_cap {plus : Bool} {cs cap rem : List Char}
    (h : matchLink plus cs = some (cap, rem)) :
    ∀ c ∈ cap, isTargetChar c = true := by
  simp only [matchLink] at h
  split at h
  · split at h
    · exact absurd h (by simp)
    · split at h
      · rw [Option.some.injEq, Prod.mk.injEq] at h
        intro c hc
        rw [← h.1] at hc
        exact List.mem_takeWhile_imp hc
      · split at h
        · split at h
          · exact absurd h (by simp)
          · split at h
            · rw [Option.some.injEq, Prod.mk.injEq] at h
              intro c hc
              rw [← h.1] at hc
              exact List.mem_takeWhile_imp hc
            · exact absurd h (by simp)
        · exact absurd h (by simp)
  · exact absurd h (by simp)

theorem head_dropWhile_not {p : Char → Bool} :
    ∀ (l : List Char) {a : Char}, (l.dropWhile p).head? = some a → p a = false := by
  intro l
  induction l with
  | nil => intro a h; simp at h
  | cons b t ih =>
    intro a h
    rw [List.dropWhile_cons] at h
    by_cases hp : p b
    · rw [if_pos hp] at h
      exact ih h
    · rw [if_neg hp] at h
      rw [List.head?_cons, Option.some.injEq] at h
      rw [← h]
      exact Bool.of_not_eq_true hp

/-- Shape of every element kept by the scan driver: non-empty, not starting
with `[`, and consisting only of class characters other than newline. -/
theorem scanAux_mem {plus : Bool} : ∀ (fuel : Nat) (cs : List Char)
    (seen : List (List Char)) (t : List Char), t ∈ scanAux plus fuel cs seen →
    t ≠ [] ∧ t.head? ≠ some '[' ∧ ∀ c ∈ t, isTargetChar c = true ∧ c ≠ '\n' := by
  intro fuel
  induction fuel with
  | zero => intro cs seen t ht; exact absurd ht (by simp [scanAux])
  | succ f ih =>
    intro cs seen t ht
    cases hm : matchLink plus cs with
    | none =>
      rw [scanAux, hm] at ht
      simp only [Option.elim] at ht
      by_cases hcs : cs.isEmpty
      · rw [if_pos hcs] at ht
        exact absurd ht (by simp)
      · rw [if_neg hcs] at ht
        exact ih cs.tail seen t ht
    | some pr =>
      obtain ⟨cap, rem⟩ := pr
      rw [scanAux, hm] at ht
      simp only [Option.elim] at ht
      by_cases h1 : (trimChars cap).contains '\n'
      · rw [if_pos h1] at ht
        exact ih rem seen t ht
      · rw [if_neg h1] at ht
        by_cases h2 : ((trimChars cap).dropWhile (· = '[')).isEmpty
        · rw [if_pos h2] at ht
          exact ih rem seen t ht
        · rw [if_neg h2] at ht
          by_cases h3 : (trimChars cap).dropWhile (· = '[') ∈ seen
          · rw [if_pos h3] at ht
            exact ih rem seen t ht
          · rw [if_neg h3] at ht
            rcases List.mem_cons.mp ht with h4 | h4
            · subst h4
              refine ⟨by simpa using h2, ?_, ?_⟩
              · intro hcon
                have hw := head_dropWhile_not (p := (· = '[')) (trimChars cap) hcon
                simp at hw
              · intro c hc
                have hc1 : c ∈ trimChars cap :=
                  (List.dropWhile_suffix _).subset hc
                have hc2 : c ∈ cap := mem_trimChars hc1
                refine ⟨matchLink_cap hm c hc2, ?_⟩
                intro hcon
                subst hcon
                have hcontains : (trimChars cap).contains '\n' = true := by
                  simpa using hc1
                rw [hcontains] at h1
                exact h1 rfl
            · exact ih rem _ t h4

/-- The scan driver never emits an element of `seen`, and its output has no
duplicates. -/
theorem scanAux_nodup {plus : Bool} : ∀ (fuel : Nat) (cs : List Char)
    (seen : List (List Char)),
    (∀ t ∈ scanAux plus fuel cs seen, t ∉ seen) ∧ (scanAux plus fuel cs seen).Nodup := by
  intro fuel
  induction fuel with
  | zero => intro cs seen; simp [scanAux]
  | succ f ih =>
    intro cs seen
    cases hm : matchLink plus cs with
    | none =>
      rw [scanAux, hm]
      simp only [Option.elim]
      by_cases hcs : cs.isEmpty
      · rw [if_pos hcs]; simp
      · rw [if_neg hcs]; exact ih cs.tail seen
    | some pr =>
      obtain ⟨cap, rem⟩ := pr
      rw [scanAux, hm]
      simp only [Option.elim]
      by_cases h1 : (trimChars cap).contains '\n'
      · rw [if_pos h1]; exact ih rem seen
      · rw [if_neg h1]
        by_cases h2 : ((trimChars cap).dropWhile (· = '[')).isEmpty
        · rw [if_pos h2]; exact ih rem seen
        · rw [if_neg h2]
          by_cases h3 : (trimChars cap).dropWhile (· = '[') ∈ seen
          · rw [if_pos h3]; exact ih rem seen
          · rw [if_neg h3]
            have ihr := ih rem (seen ++ [(trimChars cap).dropWhile (· = '[')])
            constructor
            · intro t ht
              rcases List.mem_cons.mp ht with h4 | h4
              · subst h4; exact h3
              · intro hcon
                exact ihr.1 t h4 (List.mem_append_left _ hcon)
            · rw [List.nodup_cons]
              refine ⟨?_, ihr.2⟩
              intro hcon
              exact ihr.1 _ hcon (List.mem_append_right _ (by simp))

/-- C9: output-shape invariant of the scanner.  Under the default pattern,
every extracted link text is a non-empty string containing no newline, no
`]` and no `|`, not beginning with `[`; and the returned list contains no
duplicates. -/
theorem extractLinks_output_shape (content : String) :
    (∀ t ∈ extractLinks content,
      t ≠ "" ∧ (∀ c ∈ t.data, c ≠ '\n' ∧ c ≠ ']' ∧ c ≠ '|') ∧
        t.data.head? ≠ some '[') ∧
    (extractLinks content).Nodup := by
  constructor
  · intro t ht
    rw [extractLinks] at ht
    obtain ⟨l, hl, hlt⟩ := List.mem_map.mp ht
    obtain ⟨hne, hhead, hchars⟩ := scanAux_mem _ _ _ l hl
    subst hlt
    refine ⟨?_, ?_, hhead⟩
    · intro hcon
      exact hne (congrArg String.data hcon)
    · intro c hc
      obtain ⟨htc, hnl⟩ := hchars c hc
      rw [isTargetChar] at htc
      refine ⟨hnl, ?_, ?_⟩
      · intro hcon; subst hcon; simp at htc
      · intro hcon; subst hcon; simp at htc
  · rw [extractLinks]
    apply List.Nodup.map
    · intro a b hab
      exact congrArg String.data hab
    · exact (scanAux_nodup _ _ _).2

/-! ## Bounded traversal properties (claim C5) -/

/-- The connected-ids accumulator of the BFS stays duplicate-free: a node
is appended only when it is not yet visited, and every collected node is
visited. -/
theorem bfsAux_conn_nodup (w : WikiState) (depth : Nat) :
    ∀ (fuel : Nat) (queue : List (String × Nat)) (visited conn : List String)
      (fid : Nat), conn.Nodup → (∀ x ∈ conn, x ∈ visited) →
    ((bfsAux w depth fuel queue visited conn fid).1).Nodup := by
  intro fuel
  induction fuel with
  | zero => intro queue visited conn fid h1 _; rw [bfsAux]; exact h1
  | succ f ih =>
    intro queue visited conn fid h1 h2
    cases queue with
    | nil => rw [bfsAux]; exact h1
    | cons cur rest =>
      rw [bfsAux]
      by_cases hv : visited.contains cur.1
      · rw [if_pos hv]
        exact ih rest visited conn fid h1 h2
      · rw [if_neg hv]
        have hnv : cur.1 ∉ visited := by simpa using hv
        have hnc : cur.1 ∉ conn := fun hc => hnv (h2 _ hc)
        have h1' : (conn ++ [cur.1]).Nodup := by
          rw [List.nodup_append]
          exact ⟨h1, List.nodup_singleton _, by simpa using hnc⟩
        have h2' : ∀ x ∈ conn ++ [cur.1], x ∈ visited ++ [cur.1] := by
          intro x hx
          rcases List.mem_append.mp hx with h | h
          · exact List.mem_append_left _ (h2 x h)
          · exact List.mem_append_right _ h
        by_cases hd : cur.2 < depth
        · rw [if_pos hd]
          exact ih _ _ _ _ h1' h2'
        · rw [if_neg hd]
          exact ih _ _ _ _ h1' h2'

/-- Relating the returned page objects to their ids, for stores whose page
values carry their own key as `id`. -/
theorem map_id_filterMap (w : WikiState)
    (hwf : ∀ k p, alookup w.pages k = some p → p.id = k) :
    ∀ (l : List String),
      (l.filterMap fun pid => alookup w.pages pid).map WikiPage.id =
        l.filter fun k => acontains w.pages k := by
  intro l
  induction l with
  | nil => rfl
  | cons a t ih =>
    rw [List.filterMap_cons, List.filter_cons]
    cases hl : alookup w.pages a with
    | none =>
      rw [if_neg (by simp [acontains, hl])]
      exact ih
    | some p =>
      rw [if_pos (by simp [acontains, hl])]
      rw [List.map_cons, ih, hwf a p hl]

/-- `getConnectedPages` reduced to the BFS loop when the start page
exists. -/
theorem getConnectedPages_open (w : WikiState) (id : String) (depth : Nat)
    (page : WikiPage) (h : alookup w.pages id = some page) :
    getConnectedPages w id depth =
      (bfsAux w depth (bfsFuel w) [(id, 0)] [] [] w.nextFallbackId).1.filterMap
        fun pid => alookup w.pages pid := by
  rw [getConnectedPages, h]

/-- At depth `0` the BFS visits only the start node. -/
theorem bfsAux_depth_zero (w : WikiState) (id : String) (fid : Nat) :
    bfsAux w 0 (bfsFuel w) [(id, 0)] [] [] fid = ([id], fid) := by
  obtain ⟨E, hE⟩ : ∃ E, bfsFuel w = E + 1 := ⟨_, rfl⟩
  rw [hE, bfsAux]
  rw [if_neg (by simp [List.contains])]
  rw [if_neg (by simp)]
  cases E with
  | zero => rw [bfsAux]; rfl
  | succ e => rw [bfsAux]; rfl

/-- The BFS trace on the two-page cycle: the result is `["a", "b"]` for
every depth bound of at least 1. -/
theorem bfsAux_cycle (n : Nat) (hn : 1 ≤ n) :
    bfsAux wCycle n (bfsFuel wCycle) [("a", 0)] [] [] wCycle.nextFallbackId =
      (["a", "b"], 1) := by
  rcases Nat.lt_or_ge 1 n with h1 | h1
  · have hF : bfsFuel wCycle = 23 + 1 + 1 + 1 := by decide
    have hfid : wCycle.nextFallbackId = 1 := by decide
    rw [hF, hfid]
    have e1 : bfsAux wCycle n (23 + 1 + 1 + 1) [("a", 0)] [] [] 1 =
        bfsAux wCycle n (23 + 1 + 1) [("b", 1), ("b", 1)] ["a"] ["a"] 1 := by
      rw [bfsAux]
      rw [if_neg (show ¬(([] : List String).contains ("a", 0).1 = true) from
        by decide)]
      rw [if_pos (show (("a", 0) : String × Nat).2 < n from hn)]
      congr 1
    have e2 : bfsAux wCycle n (23 + 1 + 1) [("b", 1), ("b", 1)] ["a"] ["a"] 1 =
        bfsAux wCycle n (23 + 1) [("b", 1)] ["a", "b"] ["a", "b"] 1 := by
      rw [bfsAux]
      rw [if_neg (show ¬((["a"] : List String).contains ("b", 1).1 = true) from
        by decide)]
      rw [if_pos (show (("b", 1) : String × Nat).2 < n from h1)]
      congr 1
    have e34 : bfsAux wCycle n (23 + 1) [("b", 1)] ["a", "b"] ["a", "b"] 1 =
        (["a", "b"], 1) := by
      rw [bfsAux]
      rw [if_pos (show (["a", "b"] : List String).contains ("b", 1).1 = true from
        by decide)]
      rw [bfsAux]
    rw [e1, e2, e34]
  · have hn1 : n = 1 := by omega
    subst hn1
    decide

/-- The concrete cycle store is id-well-formed: each stored page object
carries its own key as `id`. -/
theorem wCycle_id_wf : ∀ (k : String) (p : WikiPage),
    alookup wCycle.pages k = some p → p.id = k := by
  intro k p h
  have hpg : wCycle.pages =
      [("a", ⟨"a", "A", "[[B]]", none, none, 0, 0⟩),
       ("b", ⟨"b", "B", "[[A]]", none, none, 1, 1⟩)] := by decide
  rw [hpg, alookup] at h
  by_cases h1 : "a" = k
  · rw [if_pos h1] at h
    rw [Option.some.injEq] at h
    rw [← h, ← h1]
  · rw [if_neg h1, alookup] at h
    by_cases h2 : "b" = k
    · rw [if_pos h2] at h
      rw [Option.some.injEq] at h
      rw [← h, ← h2]
    · rw [if_neg h2, alookup] at h
      exact absurd h (by simp)

/-- C5: `getConnectedPages(id, 0)` is exactly `[id]` when the page exists
and `[]` when it does not; the traversal never returns a page twice (for
stores whose page values carry their key as `id`); and on the two-page
mutual-link cycle the result is exactly `[a, b]` for every depth `n ≥ 1` —
the visited-set makes the cyclic traversal terminate with exactly-once
inclusion. -/
theorem getConnectedPages_depth_and_cycle :
    (∀ (w : WikiState) (id : String) (page : WikiPage),
        alookup w.pages id = some page → getConnectedPages w id 0 = [page]) ∧
    (∀ (w : WikiState) (id : String) (depth : Nat),
        alookup w.pages id = none → getConnectedPages w id depth = []) ∧
    (∀ (w : WikiState) (id : String) (depth : Nat),
        (∀ k p, alookup w.pages k = some p → p.id = k) →
        ((getConnectedPages w id depth).map WikiPage.id).Nodup) ∧
    (∀ n : Nat, 1 ≤ n →
        (getConnectedPages wCycle "a" n).map WikiPage.id = ["a", "b"]) := by
  refine ⟨?_, ?_, ?_, ?_⟩
  · intro w id page h
    rw [getConnectedPages_open w id 0 page h, bfsAux_depth_zero,
      List.filterMap_cons]
    rw [h]
    rfl
  · intro w id depth h
    rw [getConnectedPages, h]
  · intro w id depth hwf
    cases hl : alookup w.pages id with
    | none =>
      rw [getConnectedPages, hl]
      exact List.nodup_nil
    | some page =>
      rw [getConnectedPages_open w id depth page hl, map_id_filterMap w hwf]
      exact List.Nodup.filter _
        (bfsAux_conn_nodup w depth (bfsFuel w) [(id, 0)] [] [] w.nextFallbackId
          List.nodup_nil (by simp))
  · intro n hn
    have hp : alookup wCycle.pages "a" =
        some ⟨"a", "A", "[[B]]", none, none, 0, 0⟩ := by decide
    rw [getConnectedPages_open wCycle "a" n _ hp, bfsAux_cycle n hn]
    decide

/-- C5 witness: the general parts applied to the concrete cycle state and
depths 0, 2 and 3. -/
theorem getConnectedPages_depth_and_cycle_witness :
    (alookup wCycle.pages "a" = some ⟨"a", "A", "[[B]]", none, none, 0, 0⟩ ∧
      getConnectedPages wCycle "a" 0 = [⟨"a", "A", "[[B]]", none, none, 0, 0⟩]) ∧
    (alookup wCycle.pages "zzz" = none ∧ getConnectedPages wCycle "zzz" 2 = []) ∧
    ((getConnectedPages wCycle "a" 3).map WikiPage.id).Nodup ∧
    (1 ≤ 3 ∧ (getConnectedPages wCycle "a" 3).map WikiPage.id = ["a", "b"]) := by
  refine ⟨⟨by decide, ?_⟩, ⟨by decide, ?_⟩, ?_, by decide, ?_⟩
  · exact getConnectedPages_depth_and_cycle.1 wCycle "a" _ (by decide)
  · exact getConnectedPages_depth_and_cycle.2.1 wCycle "zzz" 2 (by decide)
  · exact getConnectedPages_depth_and_cycle.2.2.1 wCycle "a" 3 wCycle_id_wf
  · exact getConnectedPages_depth_and_cycle.2.2.2 3 (by decide)

/-- C9 witness: the shape invariant instantiated on a concrete content with
a code span, a duplicate and a display-text link. -/
theorem extractLinks_output_shape_witness :
    ("Real" ∈ extractLinks "`[[Not]]` [[Real]] [[Real]] [[A|b]]") ∧
    (("Real" : String) ≠ "" ∧
      (∀ c ∈ ("Real" : String).data, c ≠ '\n' ∧ c ≠ ']' ∧ c ≠ '|') ∧
      ("Real" : String).data.head? ≠ some '[') ∧
    (extractLinks "`[[Not]]` [[Real]] [[Real]] [[A|b]]").Nodup := by
  refine ⟨by decide, ?_, (extractLinks_output_shape "`[[Not]]` [[Real]] [[Real]] [[A|b]]").2⟩
  exact (extractLinks_output_shape "`[[Not]]` [[Real]] [[Real]] [[A|b]]").1 "Real" (by decide)
